import Mathlib

/-!
Verification development for the CoachByte workout-tracking backend
(`services/backend/db.js`, `services/backend/server.js`, `ui/src/PRTracker.jsx`).

The relational store (PostgreSQL tables) is embedded as lists of rows inside a
`DB` structure; SQL statements become pure functions on that structure.  JS
numbers standing for `REAL` columns are embedded as `ℚ`, `INTEGER` columns as
`Int`, `SERIAL` keys as `Nat` counters, and `TIMESTAMPTZ` values as epoch
seconds (`Int`), with the store clock `CURRENT_TIMESTAMP` carried as a `now`
field of the state.  String scanning is done structurally on the character
list of a `String` so every definition evaluates inside the kernel.
-/

/-- JS `Math.round`: round half toward positive infinity. -/
def jsRound (q : ℚ) : ℤ := ⌊q + 1 / 2⌋

/-- Whitespace characters stripped by JS `trim` / skipped by `parseInt`
(ASCII fragment). -/
def jsWhitespace (c : Char) : Bool :=
  c = ' ' ∨ c = '\t' ∨ c = '\n' ∨ c = '\r'

/-- JS `String.prototype.trim` on the character list. -/
def trimChars (cs : List Char) : List Char :=
  ((cs.dropWhile jsWhitespace).reverse.dropWhile jsWhitespace).reverse

/-- Value of the maximal leading run of decimal digits, or `none` when the
first character is not a digit (the `NaN` case of `parseInt`). -/
def digitPrefixValue : List Char → Option Nat
  | [] => none
  | c :: cs =>
    if c.isDigit then some (digitRun cs (c.toNat - '0'.toNat)) else none
where
  digitRun : List Char → Nat → Nat
    | [], acc => acc
    | c :: cs, acc =>
      if c.isDigit then digitRun cs (acc * 10 + (c.toNat - '0'.toNat)) else acc

/-- JS `parseInt(s, 10)`: skip leading whitespace, optional sign, then the
maximal digit prefix; `none` models `NaN`. -/
def jsParseIntChars (cs : List Char) : Option Int :=
  match cs.dropWhile jsWhitespace with
  | '-' :: rest => (digitPrefixValue rest).map (fun n => -(n : Int))
  | '+' :: rest => (digitPrefixValue rest).map (fun n => (n : Int))
  | l => (digitPrefixValue l).map (fun n => (n : Int))

/-- JS `parseInt(s, 10) || 0`: `NaN` collapses to `0` (a parsed `0` is
unchanged by the `||`). -/
def jsParseIntOr0 (cs : List Char) : Int :=
  (jsParseIntChars cs).getD 0

/-- JS `String.prototype.split(':')` on the character list. -/
def splitOnColon : List Char → List (List Char)
  | [] => [[]]
  | c :: cs =>
    if c = ':' then [] :: splitOnColon cs
    else
      match splitOnColon cs with
      | [] => [[c]]
      | p :: ps => (c :: p) :: ps

/-- Embeds `parseDayStartMinutes` from `db.js`: trims the input, splits an
`"HH:MM"` string on the first colon (JS `split(':', 2)` keeps the first two
segments), or reads a 3-4 digit `"HHMM"` string after left-padding with `'0'`;
hours are clamped to `[0, 23]` and minutes to `[0, 59]`; every other input
yields `0`. -/
def parseDayStartMinutes (value : String) : Int :=
  let raw := trimChars value.data
  if raw = [] then 0
  else if raw.contains ':' then
    let parts := splitOnColon raw
    let hours := min (max (jsParseIntOr0 (parts.headD [])) 0) 23
    let minutes := min (max (jsParseIntOr0 (parts.tail.headD [])) 0) 59
    hours * 60 + minutes
  else if 3 ≤ raw.length ∧ raw.length ≤ 4 ∧ raw.all Char.isDigit then
    let padded := if raw.length = 3 then '0' :: raw else raw
    let hours := min (max (jsParseIntOr0 (padded.take 2)) 0) 23
    let minutes := min (max (jsParseIntOr0 (padded.drop 2)) 0) 59
    hours * 60 + minutes
  else 0

/-- A calendar date as held in a `DATE` column or a JS `Date`'s UTC fields. -/
structure CalDate where
  year : Nat
  month : Nat
  day : Nat
deriving DecidableEq

def isLeapYear (y : Nat) : Bool :=
  (y % 4 = 0 ∧ y % 100 ≠ 0) ∨ y % 400 = 0

def daysInMonth (y m : Nat) : Nat :=
  if m = 2 then (if isLeapYear y then 29 else 28)
  else if m = 4 ∨ m = 6 ∨ m = 9 ∨ m = 11 then 30
  else 31

/-- The previous calendar date, as produced by
`dateUtc.setUTCDate(dateUtc.getUTCDate() - 1)` on a JS `Date` (proleptic
Gregorian rollover across month and year boundaries). -/
def prevCalendarDate (d : CalDate) : CalDate :=
  if 1 < d.day then ⟨d.year, d.month, d.day - 1⟩
  else if 1 < d.month then ⟨d.year, d.month - 1, daysInMonth d.year (d.month - 1)⟩
  else ⟨d.year - 1, 12, 31⟩

/-- JS `String(n).padStart(2, '0')`. -/
def pad2 (n : Nat) : String :=
  if n < 10 then "0" ++ toString n else toString n

/-- The `yyyy-mm-dd` template string built at the end of `getTodayInEst`. -/
def formatCalDate (d : CalDate) : String :=
  toString d.year ++ "-" ++ pad2 d.month ++ "-" ++ pad2 d.day

/-- Local wall-clock fields extracted by the `Intl.DateTimeFormat` part lookup
in `getTodayInEst`; the timezone conversion itself is performed by the JS
runtime and is treated as this input. -/
structure LocalWallClock where
  year : Nat
  month : Nat
  day : Nat
  hour : Nat
  minute : Nat
deriving DecidableEq

/-- The logical date computed by `getTodayInEst`: the local calendar date,
pushed back one day when the local minutes-since-midnight are below the
configured day-start offset. -/
def logicalCalDate (wall : LocalWallClock) (dayStartMinutes : Int) : CalDate :=
  let minutesSinceMidnight : Int := wall.hour * 60 + wall.minute
  if minutesSinceMidnight < dayStartMinutes then
    prevCalendarDate ⟨wall.year, wall.month, wall.day⟩
  else
    ⟨wall.year, wall.month, wall.day⟩

/-- Embeds `getTodayInEst` from the point where the local wall-clock parts in
the configured timezone have been read off; returns the formatted date
string. -/
def getTodayInEst (wall : LocalWallClock) (dayStartMinutes : Int) : String :=
  formatCalDate (logicalCalDate wall dayStartMinutes)

/-- Sakamoto's day-of-week computation, agreeing with JS
`new Date(dateString + 'T00:00:00').getDay()` (0 = Sunday .. 6 = Saturday) on
Gregorian dates, as used by `applySplitIfEmpty`. -/
def dayOfWeek (d : CalDate) : Nat :=
  let t := [0, 3, 2, 5, 0, 3, 5, 1, 4, 6, 2, 4]
  let y := if d.month < 3 then d.year - 1 else d.year
  (y + y / 4 - y / 100 + y / 400 + t.getD (d.month - 1) 0 + d.day) % 7

/-- Lower-casing used to model SQL `LOWER(...)` and JS `toLowerCase()` on the
ASCII exercise names. -/
def lowerChar (c : Char) : Char :=
  if 'A' ≤ c ∧ c ≤ 'Z' then Char.ofNat (c.toNat + 32) else c

def lowerStr (s : String) : String :=
  String.mk (s.data.map lowerChar)

/-- Row of the `exercises` table. -/
structure Exercise where
  id : Nat
  name : String
deriving DecidableEq

/-- Row of the `daily_logs` table. -/
structure DailyLog where
  id : String
  logDate : CalDate
  summary : String
deriving DecidableEq

/-- Row of the `planned_sets` table. -/
structure PlannedSet where
  id : Nat
  logId : String
  exerciseId : Nat
  orderNum : Int
  reps : Int
  load : ℚ
  rest : Int
  relative : Bool
deriving DecidableEq

/-- Row of the `completed_sets` table. -/
structure CompletedSet where
  id : Nat
  logId : String
  exerciseId : Nat
  plannedSetId : Option Nat
  repsDone : Int
  loadDone : ℚ
  completedAt : Int
deriving DecidableEq

/-- Row of the `split_sets` table. -/
structure SplitSet where
  id : Nat
  dayOfWeek : Int
  exerciseId : Nat
  orderNum : Int
  reps : Int
  load : ℚ
  rest : Int
  relative : Bool
deriving DecidableEq

/-- Row of the `timer` table. -/
structure TimerRow where
  id : Nat
  timerEndTime : Int
deriving DecidableEq

/-- The transactional store: one list per table, `SERIAL` counters for the
next fresh key of each serial column, a counter generating fresh
`daily_logs.id` values (standing for the random UUIDs of `generateUuid`), and
the store clock. -/
structure DB where
  exercises : List Exercise
  dailyLogs : List DailyLog
  plannedSets : List PlannedSet
  completedSets : List CompletedSet
  splitSets : List SplitSet
  trackedExercises : List String
  timer : List TimerRow
  nextExerciseId : Nat
  nextPlannedSetId : Nat
  nextCompletedSetId : Nat
  nextSplitSetId : Nat
  nextTimerId : Nat
  nextLogNum : Nat
  now : Int
deriving DecidableEq

/-- A store with empty tables, as produced by `initDb` before any write (the
three default tracked exercises of `initDb` belong to the concrete
instances that need them). -/
def emptyDB : DB :=
  ⟨[], [], [], [], [], [], [], 1, 1, 1, 1, 1, 1, 0⟩

/-- Embeds `getExerciseId`: find an exercise by case-insensitive name, else
insert a new row with the provided name and return its serial id. -/
def getExerciseId (db : DB) (name : String) : DB × Nat :=
  match db.exercises.find? (fun e => lowerStr e.name = lowerStr name) with
  | some e => (db, e.id)
  | none =>
    let eid := db.nextExerciseId
    ({ db with exercises := db.exercises ++ [⟨eid, name⟩],
               nextExerciseId := eid + 1 }, eid)

/-- Embeds `ensureDay`: get-or-create the `daily_logs` row for a date; on
creation the summary is empty and the id is a fresh identifier (the random
UUID of `generateUuid` is modelled by a counter-generated fresh string). -/
def ensureDay (db : DB) (date : CalDate) : DB × String :=
  match db.dailyLogs.find? (fun l => l.logDate = date) with
  | some l => (db, l.id)
  | none =>
    let logId := "log-" ++ toString db.nextLogNum
    ({ db with dailyLogs := db.dailyLogs ++ [⟨logId, date, ""⟩],
               nextLogNum := db.nextLogNum + 1 }, logId)

/-- Embeds `setTimerSeconds`: `DELETE FROM timer` then insert a row ending
`max(0, seconds)` from now. -/
def setTimerSeconds (db : DB) (seconds : Int) : DB :=
  { db with timer := [⟨db.nextTimerId, db.now + max 0 seconds⟩],
            nextTimerId := db.nextTimerId + 1 }

/-- `SELECT ... FROM timer ORDER BY id DESC LIMIT 1`. -/
def latestTimerRow (db : DB) : Option TimerRow :=
  db.timer.foldl
    (fun acc r =>
      match acc with
      | none => some r
      | some a => if a.id ≤ r.id then some r else some a)
    none

/-- The record returned by `getTimerStatus`. -/
structure TimerStatus where
  running : Bool
  remainingSeconds : Int
  endsAt : Option Int
deriving DecidableEq

/-- Embeds `getTimerStatus`: with no `timer` row the record
`{running: false, remainingSeconds: 0, endsAt: null}` is returned; otherwise
the remaining seconds are clamped at 0 and `running` means strictly
positive. -/
def getTimerStatus (db : DB) : TimerStatus :=
  match latestTimerRow db with
  | none => ⟨false, 0, none⟩
  | some row =>
    let remaining := max 0 (row.timerEndTime - db.now)
    ⟨remaining > 0, remaining, some row.timerEndTime⟩

/-- The JSON produced by the `GET /api/timer` handler. -/
structure TimerApiResponse where
  status : String
  remaining_seconds : Int
  ends_at : Option Int
deriving DecidableEq

/-- Embeds the `GET /api/timer` handler in `server.js`.  In the source,
`status` starts as `'no_timer'` and is replaced whenever
`typeof t.remainingSeconds === 'number'`; `getTimerStatus` always returns a
record whose `remainingSeconds` is a number (0 when the `timer` table is
empty), so the replacement happens unconditionally, which the embedding
reflects: the `'no_timer'` default is unreachable. -/
def timerEndpoint (db : DB) : TimerApiResponse :=
  let t := getTimerStatus db
  let status := if t.remainingSeconds > 0 then "running" else "expired"
  ⟨status, max 0 t.remainingSeconds, t.endsAt⟩

/-- Time passing between requests: only the store clock advances. -/
def advanceNow (db : DB) (dt : Int) : DB :=
  { db with now := db.now + dt }

/-- A `{reps, maxLoad}` record of the PR table built by `getPRs`. -/
structure PRRecord where
  reps : Int
  maxLoad : ℚ
deriving DecidableEq

/-- `LOWER(e.name)` for the exercise row joined on `exercise_id`. -/
def exerciseLowerName (db : DB) (eid : Nat) : Option String :=
  (db.exercises.find? (fun e => e.id = eid)).map (fun e => lowerStr e.name)

/-- Membership test of `LOWER(e.name) = ANY(trackedExercises.map(toLowerCase))`. -/
def isTracked (db : DB) (exLower : String) : Bool :=
  db.trackedExercises.any (fun t => lowerStr t = exLower)

/-- The completed sets that qualify for the PR aggregation of one exercise:
joined to that exercise case-insensitively, with `reps_done > 0` and
`load_done > 0`. -/
def qualifyingSets (db : DB) (exLower : String) : List CompletedSet :=
  db.completedSets.filter (fun cs =>
    exerciseLowerName db cs.exerciseId = some exLower ∧
      0 < cs.repsDone ∧ 0 < cs.loadDone)

/-- Insertion into an ascending duplicate-free list of rep counts, building the
`GROUP BY reps_done ORDER BY reps_done` key list. -/
def insertRepCount (x : Int) : List Int → List Int
  | [] => [x]
  | y :: ys =>
    if x < y then x :: y :: ys
    else if x = y then y :: ys
    else y :: insertRepCount x ys

def repCounts (l : List CompletedSet) : List Int :=
  (l.map (fun cs => cs.repsDone)).foldr insertRepCount []

/-- SQL `MAX` over a group (the group is never empty where this is used). -/
def qMax : List ℚ → ℚ
  | [] => 0
  | [x] => x
  | x :: y :: xs => max x (qMax (y :: xs))

def maxLoadAt (l : List CompletedSet) (r : Int) : ℚ :=
  qMax ((l.filter (fun cs => cs.repsDone = r)).map (fun cs => cs.loadDone))

/-- The `getPRs` result for one lower-cased exercise name: the per-rep-count
maximum loads, ordered by rep count ascending; `[]` both when the exercise is
not tracked and when it has no qualifying completion (the key is then absent
from the JS result object). -/
def getPRsFor (db : DB) (exLower : String) : List PRRecord :=
  if isTracked db exLower then
    (repCounts (qualifyingSets db exLower)).map
      (fun r => ⟨r, maxLoadAt (qualifyingSets db exLower) r⟩)
  else []

/-- The per-record estimate of the `oneRMs` loops in `getDay` and
`applySplitIfEmpty`: `r.reps === 1 ? r.maxLoad : r.maxLoad * (1 + r.reps / 30)`. -/
def epleyEstimate (r : PRRecord) : ℚ :=
  if r.reps = 1 then r.maxLoad else r.maxLoad * (1 + (r.reps : ℚ) / 30)

/-- The `let max = 0; for (...) if (est > max) max = est` fold of `getDay`. -/
def oneRepMaxOf (records : List PRRecord) : ℚ :=
  records.foldl (fun m r => if epleyEstimate r > m then epleyEstimate r else m) 0

/-- `oneRMs[key]` in `getDay`: `none` models the property being absent from
the JS object (untracked exercise or no qualifying completions). -/
def lookupOneRM (db : DB) (exLower : String) : Option ℚ :=
  match getPRsFor db exLower with
  | [] => none
  | recs => some (oneRepMaxOf recs)

/-- A row of `getDay`'s plan `SELECT` (planned set joined to its exercise). -/
structure PlanRow where
  id : Nat
  exercise : String
  reps : Int
  load : ℚ
  rest : Int
  orderNum : Int
  relative : Bool
deriving DecidableEq

/-- A plan row extended with the fields added by the
`planWithCalculatedWeights` map of `getDay`. -/
structure PlanViewRow where
  id : Nat
  exercise : String
  reps : Int
  load : ℚ
  rest : Int
  orderNum : Int
  relative : Bool
  calculatedLoad : ℚ
  originalLoad : ℚ
deriving DecidableEq

def planRowLe (a b : PlanRow) : Prop := a.orderNum ≤ b.orderNum

instance : DecidableRel planRowLe := fun a b => Int.decLe a.orderNum b.orderNum

/-- One planned set's contribution to the active-queue query of `getDay`:
kept when it belongs to the day, joins to an exercise row, and no completed
set references it via `planned_set_id` (`LEFT JOIN ... WHERE cs.id IS NULL`). -/
def planRowOf (db : DB) (logId : String) (ps : PlannedSet) : Option PlanRow :=
  if ps.logId = logId then
    match db.exercises.find? (fun e => e.id = ps.exerciseId) with
    | some e =>
      if db.completedSets.any (fun cs => cs.plannedSetId = some ps.id) then none
      else some ⟨ps.id, e.name, ps.reps, ps.load, ps.rest, ps.orderNum, ps.relative⟩
    | none => none
  else none

/-- The active-queue query of `getDay`, ordered by `order_num` (stable sort
models the `ORDER BY`). -/
def planQuery (db : DB) (logId : String) : List PlanRow :=
  List.insertionSort planRowLe (db.plannedSets.filterMap (planRowOf db logId))

/-- The `planWithCalculatedWeights` map of `getDay`: for a relative row the
1RM is looked up under the lower-cased exercise name and
`rm ? Math.round(rm * load / 100) : 0` resolves the percentage; for an
absolute row `calculatedLoad = originalLoad = load`. -/
def resolvePlanRow (db : DB) (row : PlanRow) : PlanViewRow :=
  if row.relative then
    let calculatedLoad : ℚ :=
      match lookupOneRM db (lowerStr row.exercise) with
      | some rm => if rm ≠ 0 then (jsRound (rm * row.load / 100) : ℚ) else 0
      | none => 0
    ⟨row.id, row.exercise, row.reps, row.load, row.rest, row.orderNum, row.relative,
      calculatedLoad, row.load⟩
  else
    ⟨row.id, row.exercise, row.reps, row.load, row.rest, row.orderNum, row.relative,
      row.load, row.load⟩

/-- A row of `getDay`'s completed `SELECT`. -/
structure CompletedRow where
  id : Nat
  exercise : String
  plannedSetId : Option Nat
  repsDone : Int
  loadDone : ℚ
  completedAt : Int
deriving DecidableEq

def completedRowGe (a b : CompletedRow) : Prop := b.completedAt ≤ a.completedAt

instance : DecidableRel completedRowGe := fun a b => Int.decLe b.completedAt a.completedAt

/-- `ORDER BY cs.completed_at DESC` over the day's completed sets joined to
their exercises (`NULLS LAST` is vacuous: inserts stamp `CURRENT_TIMESTAMP`). -/
def completedQuery (db : DB) (logId : String) : List CompletedRow :=
  List.insertionSort completedRowGe
    (db.completedSets.filterMap (fun cs =>
      if cs.logId = logId then
        match db.exercises.find? (fun e => e.id = cs.exerciseId) with
        | some e => some ⟨cs.id, e.name, cs.plannedSetId, cs.repsDone, cs.loadDone, cs.completedAt⟩
        | none => none
      else none))

def splitSetLe (a b : SplitSet) : Prop := a.orderNum ≤ b.orderNum

instance : DecidableRel splitSetLe := fun a b => Int.decLe a.orderNum b.orderNum

/-- The weekday's template rows as selected inside `applySplitIfEmpty`
(joined to `exercises`, ordered by `order_num`). -/
def splitRowsFor (db : DB) (dow : Nat) : List SplitSet :=
  List.insertionSort splitSetLe
    (db.splitSets.filter (fun ss =>
      ss.dayOfWeek = (dow : Int) ∧ db.exercises.any (fun e => e.id = ss.exerciseId)))

/-- The planned sets inserted by `applySplitIfEmpty`'s clone loop, with the
serial ids the consecutive inserts draw. -/
def clonedPlannedSets (logId : String) (startId : Nat) : List SplitSet → List PlannedSet
  | [] => []
  | ss :: rest =>
    ⟨startId, logId, ss.exerciseId, ss.orderNum, ss.reps, ss.load, ss.rest, ss.relative⟩ ::
      clonedPlannedSets logId (startId + 1) rest

/-- Embeds `applySplitIfEmpty`: a no-op when the day already has planned sets;
otherwise every template row of the date's weekday is copied into the day,
preserving order, reps, load, rest and relative flag verbatim.  (The `oneRMs`
table the source builds here is dead code — the loop inserts `row.load`
unchanged — so it has no state effect to embed.) -/
def applySplitIfEmpty (db : DB) (logId : String) (date : CalDate) : DB :=
  if 0 < (db.plannedSets.filter (fun ps => ps.logId = logId)).length then db
  else
    let rows := splitRowsFor db (dayOfWeek date)
    { db with plannedSets := db.plannedSets ++ clonedPlannedSets logId db.nextPlannedSetId rows,
              nextPlannedSetId := db.nextPlannedSetId + rows.length }

/-- The value returned by `getDay`. -/
structure DayView where
  log : DailyLog
  plan : List PlanViewRow
  completed : List CompletedRow
deriving DecidableEq

/-- Embeds `getDay`: `none` when the id is unknown; otherwise the split is
applied if the day is empty (the source's format-then-reparse of `log_date`
round-trips to the same date) and the log, resolved plan and completed
history are read from the resulting state. -/
def getDay (db : DB) (id : String) : DB × Option DayView :=
  match db.dailyLogs.find? (fun l => l.id = id) with
  | none => (db, none)
  | some log =>
    let db1 := applySplitIfEmpty db id log.logDate
    (db1, some ⟨log, (planQuery db1 id).map (resolvePlanRow db1), completedQuery db1 id⟩)

/-- The body fields consumed by `addPlan` / `updatePlan` / `addSplit`;
`none` models an absent or `null` JSON field. -/
structure PlanItem where
  exercise : String
  order_num : Int
  reps : Int
  load : ℚ
  rest : Option Int
  relative : Option Bool
deriving DecidableEq

/-- JS `item.rest || 60`: absent, `null` and `0` all fall back to 60. -/
def jsRestOr60 : Option Int → Int
  | none => 60
  | some r => if r = 0 then 60 else r

/-- Embeds `addPlan`: get-or-create the exercise, default the rest, insert. -/
def addPlan (db : DB) (logId : String) (item : PlanItem) : DB × Nat :=
  let p := getExerciseId db item.exercise
  let pid := p.1.nextPlannedSetId
  ({ p.1 with
      plannedSets := p.1.plannedSets ++
        [⟨pid, logId, p.2, item.order_num, item.reps, item.load,
          jsRestOr60 item.rest, item.relative.getD false⟩],
      nextPlannedSetId := pid + 1 }, pid)

/-- Embeds `updatePlan`: `UPDATE planned_sets SET ... WHERE id = $7`. -/
def updatePlan (db : DB) (id : Nat) (item : PlanItem) : DB :=
  let p := getExerciseId db item.exercise
  { p.1 with
      plannedSets := p.1.plannedSets.map (fun ps =>
        if ps.id = id then
          ⟨ps.id, ps.logId, p.2, item.order_num, item.reps, item.load,
            jsRestOr60 item.rest, item.relative.getD false⟩
        else ps) }

/-- Embeds `addSplit`: same shape as `addPlan` against `split_sets`. -/
def addSplit (db : DB) (dow : Int) (item : PlanItem) : DB × Nat :=
  let p := getExerciseId db item.exercise
  let sid := p.1.nextSplitSetId
  ({ p.1 with
      splitSets := p.1.splitSets ++
        [⟨sid, dow, p.2, item.order_num, item.reps, item.load,
          jsRestOr60 item.rest, item.relative.getD false⟩],
      nextSplitSetId := sid + 1 }, sid)

/-- The body fields consumed by `addCompleted`. -/
structure CompletedItem where
  exercise : String
  reps_done : Int
  load_done : ℚ
  planned_set_id : Option Nat
deriving DecidableEq

/-- JS `item.planned_set_id || null` (a 0 id — which serial columns never
produce — would collapse to `null`). -/
def jsIdOrNull : Option Nat → Option Nat
  | none => none
  | some n => if n = 0 then none else some n

/-- Embeds `addCompleted`: get-or-create the exercise, insert the completion
stamped with the store clock. -/
def addCompleted (db : DB) (logId : String) (item : CompletedItem) : DB × Nat :=
  let p := getExerciseId db item.exercise
  let cid := p.1.nextCompletedSetId
  ({ p.1 with
      completedSets := p.1.completedSets ++
        [⟨cid, logId, p.2, jsIdOrNull item.planned_set_id,
          item.reps_done, item.load_done, p.1.now⟩],
      nextCompletedSetId := cid + 1 }, cid)

/-- Embeds the `POST /api/days/:id/completed` handler in `server.js`: read the
day (an unknown id makes the handler throw before any write — modelled by the
`none` result), capture the head of the current active queue, insert the
completion, set the timer to that head's rest when it is truthy, then re-read
the day to build the response (the re-read repeats `applySplitIfEmpty`).
Returns the final store and the new completed set's id. -/
def completedEndpoint (db : DB) (logId : String) (item : CompletedItem) :
    DB × Option Nat :=
  match getDay db logId with
  | (db1, none) => (db1, none)
  | (db1, some dayData) =>
    let nextSet := dayData.plan.head?
    let p := addCompleted db1 logId item
    let db3 :=
      match nextSet with
      | some ns => if ns.rest ≠ 0 then setTimerSeconds p.1 ns.rest else p.1
      | none => p.1
    ((getDay db3 logId).1, some p.2)

/-- Embeds `ensureTodayPlan`'s body for an arbitrary date: `ensureDay`
followed by `applySplitIfEmpty` on the resulting day id. -/
def materializeDay (db : DB) (date : CalDate) : DB × String :=
  let p := ensureDay db date
  (applySplitIfEmpty p.1 p.2 date, p.2)

/-- Embeds `computeEstimated1RM` from `PRTracker.jsx`. -/
def computeEstimated1RM (reps : Int) (load : ℚ) : Int :=
  jsRound (load * (1 + (reps : ℚ) / 30))

/-- An entry of the processed PR list displayed by `PRTracker.jsx`; source
entries carry no `estimated` property, which reads back as falsy, modelled by
`estimated := false`. -/
structure DisplayPR where
  reps : Int
  maxLoad : ℚ
  estimated : Bool
deriving DecidableEq

def prRecordLe (a b : PRRecord) : Prop := a.reps ≤ b.reps

instance : DecidableRel prRecordLe := fun a b => Int.decLe a.reps b.reps

/-- JS `[...prList].sort((a, b) => a.reps - b.reps)` (a stable sort by rep
count). -/
def sortedByReps (l : List PRRecord) : List PRRecord :=
  List.insertionSort prRecordLe l

def toDisplayPR (pr : PRRecord) : DisplayPR := ⟨pr.reps, pr.maxLoad, false⟩

/-- Embeds the per-exercise body of `processPRs` in `PRTracker.jsx`: sort by
reps; when no true 1-rep entry exists and the list is non-empty, prepend a
synthesized 1-rep entry estimated from the lowest-rep record and flagged
`estimated: true`. -/
def processExercisePRs (prList : List PRRecord) : List DisplayPR :=
  let sorted := sortedByReps prList
  if sorted.any (fun pr => pr.reps = 1) then
    sorted.map toDisplayPR
  else
    match sorted with
    | [] => []
    | next :: rest =>
      ⟨1, (computeEstimated1RM next.reps next.maxLoad : ℚ), true⟩ ::
        (next :: rest).map toDisplayPR

/-- A store holding one Sunday template row with rest 0 and an empty day. -/
def restWitnessDB : DB :=
  { emptyDB with
      exercises := [⟨1, "Running"⟩],
      nextExerciseId := 2,
      splitSets := [⟨1, 0, 1, 1, 1, 20, 0, false⟩],
      nextSplitSetId := 2,
      dailyLogs := [⟨"d1", ⟨2026, 10, 11⟩, ""⟩] }

/-- A store holding a single empty day. -/
def oneDayDB : DB := { emptyDB with dailyLogs := [⟨"d1", ⟨2026, 1, 5⟩, ""⟩] }

/-- A store with one day holding a single absolute planned set. -/
def c5DB : DB :=
  { emptyDB with
      exercises := [⟨1, "Bench Press"⟩],
      nextExerciseId := 2,
      dailyLogs := [⟨"d1", ⟨2026, 1, 5⟩, ""⟩],
      plannedSets := [⟨1, "d1", 1, 1, 5, 135, 90, false⟩],
      nextPlannedSetId := 2 }

/-- A store whose day `"d1"` has the active queue `[A(rest=60), B(rest=90)]`
(planned sets 1 and 2) and no completions, ready for the completion of A. -/
def c1DB : DB :=
  { emptyDB with
      exercises := [⟨1, "Bench Press"⟩],
      nextExerciseId := 2,
      dailyLogs := [⟨"d1", ⟨2026, 1, 5⟩, ""⟩],
      plannedSets := [⟨1, "d1", 1, 1, 5, 135, 60, false⟩,
        ⟨2, "d1", 1, 2, 5, 135, 90, false⟩],
      nextPlannedSetId := 3,
      now := 1000 }

/-- The request body completing planned set A (id 1). -/
def c1Item : CompletedItem := ⟨"Bench Press", 5, 135, some 1⟩

instance : IsTotal PRRecord prRecordLe :=
  ⟨fun a b => Int.le_total a.reps b.reps⟩

instance : IsTrans PRRecord prRecordLe :=
  ⟨fun _ _ _ h1 h2 => le_trans h1 h2⟩

theorem find?_append_of_isSome {α} (l₁ l₂ : List α) (p : α → Bool)
    (h : (l₁.find? p).isSome) : (l₁ ++ l₂).find? p = l₁.find? p := by
  rw [List.find?_append]
  cases hf : l₁.find? p
  · rw [hf] at h; simp at h
  · rfl

theorem getExerciseId_state (db : DB) (n : String) :
    (getExerciseId db n).1.plannedSets = db.plannedSets ∧
    (getExerciseId db n).1.completedSets = db.completedSets ∧
    (getExerciseId db n).1.dailyLogs = db.dailyLogs ∧
    (getExerciseId db n).1.splitSets = db.splitSets ∧
    (getExerciseId db n).1.timer = db.timer ∧
    (getExerciseId db n).1.now = db.now ∧
    (getExerciseId db n).1.trackedExercises = db.trackedExercises ∧
    (getExerciseId db n).1.nextPlannedSetId = db.nextPlannedSetId ∧
    (getExerciseId db n).1.nextCompletedSetId = db.nextCompletedSetId ∧
    (getExerciseId db n).1.nextSplitSetId = db.nextSplitSetId ∧
    (getExerciseId db n).1.nextTimerId = db.nextTimerId ∧
    ∃ add, (getExerciseId db n).1.exercises = db.exercises ++ add := by
  unfold getExerciseId
  cases db.exercises.find? (fun e => lowerStr e.name = lowerStr n) with
  | none =>
    exact ⟨rfl, rfl, rfl, rfl, rfl, rfl, rfl, rfl, rfl, rfl, rfl, _, rfl⟩
  | some e =>
    exact ⟨rfl, rfl, rfl, rfl, rfl, rfl, rfl, rfl, rfl, rfl, rfl, [],
      (List.append_nil _).symm⟩

theorem applySplitIfEmpty_state (db : DB) (logId : String) (date : CalDate) :
    (applySplitIfEmpty db logId date).exercises = db.exercises ∧
    (applySplitIfEmpty db logId date).completedSets = db.completedSets ∧
    (applySplitIfEmpty db logId date).dailyLogs = db.dailyLogs ∧
    (applySplitIfEmpty db logId date).splitSets = db.splitSets ∧
    (applySplitIfEmpty db logId date).timer = db.timer ∧
    (applySplitIfEmpty db logId date).now = db.now ∧
    (applySplitIfEmpty db logId date).trackedExercises = db.trackedExercises ∧
    ∃ added, (applySplitIfEmpty db logId date).plannedSets = db.plannedSets ++ added := by
  unfold applySplitIfEmpty
  split
  · exact ⟨rfl, rfl, rfl, rfl, rfl, rfl, rfl, [], (List.append_nil _).symm⟩
  · exact ⟨rfl, rfl, rfl, rfl, rfl, rfl, rfl, _, rfl⟩

theorem applySplitIfEmpty_of_nonempty (db : DB) (logId : String) (date : CalDate)
    (h : 0 < (db.plannedSets.filter (fun ps => ps.logId = logId)).length) :
    applySplitIfEmpty db logId date = db := by
  unfold applySplitIfEmpty
  simp [h]

theorem day_filter_pos_of_mem {db : DB} {logId : String} {P : PlannedSet}
    (hmem : P ∈ db.plannedSets) (hlog : P.logId = logId) :
    0 < (db.plannedSets.filter (fun ps => ps.logId = logId)).length := by
  have hm : P ∈ db.plannedSets.filter (fun ps => ps.logId = logId) := by
    simp [List.mem_filter, hmem, hlog]
  exact List.length_pos.mpr (List.ne_nil_of_mem hm)

theorem resolvePlanRow_fields (db : DB) (row : PlanRow) :
    (resolvePlanRow db row).id = row.id ∧
    (resolvePlanRow db row).rest = row.rest ∧
    (resolvePlanRow db row).exercise = row.exercise ∧
    (resolvePlanRow db row).load = row.load ∧
    (resolvePlanRow db row).relative = row.relative := by
  unfold resolvePlanRow
  split <;> exact ⟨rfl, rfl, rfl, rfl, rfl⟩

theorem planRowOf_eq_some {db : DB} {logId : String} {ps : PlannedSet} {row : PlanRow}
    (h : planRowOf db logId ps = some row) :
    ps.logId = logId ∧
    row = ⟨ps.id, row.exercise, ps.reps, ps.load, ps.rest, ps.orderNum, ps.relative⟩ ∧
    (db.completedSets.any (fun cs => cs.plannedSetId = some ps.id)) = false := by
  unfold planRowOf at h
  split at h
  case isTrue hlog =>
    split at h
    case h_1 e hfind =>
      split at h
      · exact absurd h (by simp)
      case isFalse href =>
        refine ⟨hlog, ?_, by simpa using href⟩
        cases h
        rfl
    case h_2 => exact absurd h (by simp)
  case isFalse => exact absurd h (by simp)

theorem planRowOf_some_of {db : DB} {logId : String} {ps : PlannedSet} {e : Exercise}
    (hlog : ps.logId = logId)
    (hfind : db.exercises.find? (fun x => x.id = ps.exerciseId) = some e)
    (href : (db.completedSets.any (fun cs => cs.plannedSetId = some ps.id)) = false) :
    planRowOf db logId ps =
      some ⟨ps.id, e.name, ps.reps, ps.load, ps.rest, ps.orderNum, ps.relative⟩ := by
  unfold planRowOf
  rw [if_pos hlog, hfind, href]
  simp

theorem le_qMax_of_mem : ∀ {l : List ℚ} {a : ℚ}, a ∈ l → a ≤ qMax l := by
  intro l
  induction l with
  | nil => intro a ha; simp at ha
  | cons x xs ih =>
    intro a ha
    cases xs with
    | nil =>
      rw [List.mem_singleton] at ha
      simp [qMax, ha]
    | cons y ys =>
      rcases List.mem_cons.mp ha with h | h
      · rw [h]; exact le_max_left _ _
      · exact le_trans (ih h) (le_max_right _ _)

theorem qMax_pos {l : List ℚ} (hne : l ≠ []) (hpos : ∀ x ∈ l, 0 < x) :
    0 < qMax l := by
  cases l with
  | nil => exact absurd rfl hne
  | cons x xs =>
    exact lt_of_lt_of_le (hpos x (List.mem_cons_self x xs))
      (le_qMax_of_mem (List.mem_cons_self x xs))

theorem mem_insertRepCount {x a : Int} : ∀ {l : List Int},
    a ∈ insertRepCount x l ↔ a = x ∨ a ∈ l := by
  intro l
  induction l with
  | nil => simp [insertRepCount]
  | cons y ys ih =>
    unfold insertRepCount
    split
    · simp [List.mem_cons]
    · split
      case isTrue hxy =>
        subst hxy
        simp [List.mem_cons]
      · simp only [List.mem_cons, ih]
        tauto

theorem mem_repCounts {l : List CompletedSet} {a : Int} :
    a ∈ repCounts l ↔ a ∈ l.map (fun cs => cs.repsDone) := by
  unfold repCounts
  induction l with
  | nil => simp
  | cons cs rest ih =>
    simp only [List.map_cons, List.foldr_cons, mem_insertRepCount, List.mem_cons]
    rw [ih]

theorem qualifyingSets_pos {db : DB} {ex : String} {cs : CompletedSet}
    (h : cs ∈ qualifyingSets db ex) : 0 < cs.repsDone ∧ 0 < cs.loadDone := by
  unfold qualifyingSets at h
  rw [List.mem_filter] at h
  have := h.2
  simp only [decide_eq_true_eq] at this
  exact ⟨this.2.1, this.2.2⟩

/-- Every record produced by the PR aggregation has at least one rep and a
strictly positive maximum load. -/
theorem getPRsFor_pos {db : DB} {ex : String} {r : PRRecord}
    (h : r ∈ getPRsFor db ex) : 1 ≤ r.reps ∧ 0 < r.maxLoad := by
  unfold getPRsFor at h
  split at h
  · rw [List.mem_map] at h
    obtain ⟨rc, hrc, hr⟩ := h
    rw [mem_repCounts, List.mem_map] at hrc
    obtain ⟨cs, hcs, hcsr⟩ := hrc
    have hpos := qualifyingSets_pos hcs
    have hload : 0 < maxLoadAt (qualifyingSets db ex) rc := by
      apply qMax_pos
      · have : cs.loadDone ∈
            ((qualifyingSets db ex).filter (fun c => c.repsDone = rc)).map
              (fun c => c.loadDone) := by
          rw [List.mem_map]
          exact ⟨cs, by rw [List.mem_filter]; exact ⟨hcs, by simp [hcsr]⟩, rfl⟩
        exact List.ne_nil_of_mem this
      · intro x hx
        rw [List.mem_map] at hx
        obtain ⟨c, hc, hcx⟩ := hx
        rw [List.mem_filter] at hc
        rw [← hcx]
        exact (qualifyingSets_pos hc.1).2
    rw [← hr]
    refine ⟨?_, hload⟩
    show (1 : Int) ≤ rc
    have : (0 : Int) < rc := by rw [← hcsr]; exact hpos.1
    omega
  · simp at h

theorem epleyEstimate_pos {r : PRRecord} (h1 : 1 ≤ r.reps) (h2 : 0 < r.maxLoad) :
    0 < epleyEstimate r := by
  unfold epleyEstimate
  split
  · exact h2
  · have : (1 : ℚ) ≤ (r.reps : ℚ) := by exact_mod_cast h1
    have h30 : (0 : ℚ) < 1 + (r.reps : ℚ) / 30 := by positivity
    positivity

theorem oneRMStep_le (m : ℚ) (r : PRRecord) :
    m ≤ (if epleyEstimate r > m then epleyEstimate r else m) ∧
    epleyEstimate r ≤ (if epleyEstimate r > m then epleyEstimate r else m) := by
  split
  case isTrue h => exact ⟨le_of_lt h, le_refl _⟩
  case isFalse h => exact ⟨le_refl _, le_of_not_lt h⟩

theorem foldl_oneRM_init_le : ∀ (l : List PRRecord) (init : ℚ),
    init ≤ l.foldl (fun m r => if epleyEstimate r > m then epleyEstimate r else m) init := by
  intro l
  induction l with
  | nil => intro init; simp
  | cons r rest ih =>
    intro init
    exact le_trans (oneRMStep_le init r).1 (ih _)

theorem foldl_oneRM_ge : ∀ (l : List PRRecord) (init : ℚ) (r : PRRecord), r ∈ l →
    epleyEstimate r ≤
      l.foldl (fun m r => if epleyEstimate r > m then epleyEstimate r else m) init := by
  intro l
  induction l with
  | nil => intro init r h; simp at h
  | cons x rest ih =>
    intro init r h
    rcases List.mem_cons.mp h with h | h
    · subst h
      exact le_trans (oneRMStep_le init r).2 (foldl_oneRM_init_le rest _)
    · exact ih _ r h

theorem foldl_oneRM_mem_or_init : ∀ (l : List PRRecord) (init : ℚ),
    l.foldl (fun m r => if epleyEstimate r > m then epleyEstimate r else m) init = init ∨
    l.foldl (fun m r => if epleyEstimate r > m then epleyEstimate r else m) init ∈
      l.map epleyEstimate := by
  intro l
  induction l with
  | nil => intro init; exact Or.inl rfl
  | cons x rest ih =>
    intro init
    simp only [List.foldl_cons, List.map_cons, List.mem_cons]
    by_cases hx : epleyEstimate x > init
    · rw [if_pos hx]
      rcases ih (epleyEstimate x) with h | h
      · exact Or.inr (Or.inl h)
      · exact Or.inr (Or.inr h)
    · rw [if_neg hx]
      rcases ih init with h | h
      · exact Or.inl h
      · exact Or.inr (Or.inr h)

/-- For a non-empty record list with positive entries, the `oneRMs` fold
computes a strictly positive value attained by some record's estimate and
bounding every record's estimate. -/
theorem oneRepMaxOf_spec {records : List PRRecord}
    (hpos : ∀ r ∈ records, 1 ≤ r.reps ∧ 0 < r.maxLoad) (hne : records ≠ []) :
    oneRepMaxOf records ∈ records.map epleyEstimate ∧
    (∀ r ∈ records, epleyEstimate r ≤ oneRepMaxOf records) ∧
    0 < oneRepMaxOf records := by
  obtain ⟨r0, rest, hcons⟩ := List.exists_cons_of_ne_nil hne
  have hr0 : r0 ∈ records := by rw [hcons]; exact List.mem_cons_self _ _
  have hpos0 := hpos r0 hr0
  have hge : epleyEstimate r0 ≤ oneRepMaxOf records := foldl_oneRM_ge records 0 r0 hr0
  have hgt : 0 < oneRepMaxOf records :=
    lt_of_lt_of_le (epleyEstimate_pos hpos0.1 hpos0.2) hge
  refine ⟨?_, fun r hr => foldl_oneRM_ge records 0 r hr, hgt⟩
  rcases foldl_oneRM_mem_or_init records 0 with h | h
  · unfold oneRepMaxOf at hgt
    rw [h] at hgt
    exact absurd hgt (lt_irrefl 0)
  · exact h

/-- C2 (code divergence at the failing input): with no timer row ever created
(`set` never called), the `GET /api/timer` handler reports
`status = "expired"` (with `remaining_seconds = 0`, `ends_at = null`) rather
than `no_timer`, because `getTimerStatus` returns a numeric
`remainingSeconds = 0` for the empty table, so the handler's `'no_timer'`
default is unconditionally overwritten.  The running / expired readings for an
existing timer are as specified. -/
theorem timerEndpoint_no_rows_reports_expired :
    emptyDB.timer = [] ∧
    timerEndpoint emptyDB = ⟨"expired", 0, none⟩ ∧
    (timerEndpoint emptyDB).status ≠ "no_timer" ∧
    (timerEndpoint (setTimerSeconds emptyDB 90)).status = "running" ∧
    (timerEndpoint (advanceNow (setTimerSeconds emptyDB 90) 120)).status = "expired" := by
  decide

/-- C6 counterexample: for the records `{(1,100), (5,90)}` the `oneRMs` fold
of `getDay` computes 105 — the Epley estimate of the (5,90) record — not 100
as the claim states: the fold maximizes over all estimates and a true 1-rep
record enjoys no precedence. -/
theorem oneRepMaxOf_pair_counterexample :
    oneRepMaxOf [⟨1, 100⟩, ⟨5, 90⟩] = 105 ∧
    oneRepMaxOf [⟨1, 100⟩, ⟨5, 90⟩] ≠ 100 := by
  constructor <;> norm_num [oneRepMaxOf, epleyEstimate]

/-- C6 (amended): for every list of PR records (which carry at least one rep
and a positive load), the estimated one-rep max is the maximum over all
records of `reps == 1 ? maxLoad : maxLoad * (1 + reps/30)`, and 0 with no
records; `{(1,100)}` gives 100, `{(5,90)}` gives 105, and `{(1,100), (5,90)}`
gives 105 (not 100: the 1-rep record has no precedence over a larger
estimate). -/
theorem oneRepMaxOf_max_of_estimates (records : List PRRecord)
    (hpos : ∀ r ∈ records, 1 ≤ r.reps ∧ 0 < r.maxLoad) :
    (records = [] → oneRepMaxOf records = 0) ∧
    (records ≠ [] →
      oneRepMaxOf records ∈ records.map epleyEstimate ∧
      ∀ r ∈ records, epleyEstimate r ≤ oneRepMaxOf records) ∧
    oneRepMaxOf [⟨1, 100⟩] = 100 ∧
    oneRepMaxOf [⟨5, 90⟩] = 105 ∧
    oneRepMaxOf [⟨1, 100⟩, ⟨5, 90⟩] = 105 := by
  refine ⟨?_, ?_, ?_, ?_, ?_⟩
  · intro h; subst h; rfl
  · intro hne
    obtain ⟨hmem, hle, _⟩ := oneRepMaxOf_spec hpos hne
    exact ⟨hmem, hle⟩
  · norm_num [oneRepMaxOf, epleyEstimate]
  · norm_num [oneRepMaxOf, epleyEstimate]
  · norm_num [oneRepMaxOf, epleyEstimate]

theorem oneRepMaxOf_max_of_estimates_witness :
    oneRepMaxOf [⟨1, 100⟩, ⟨5, 90⟩] ∈
      ([⟨1, 100⟩, ⟨5, 90⟩] : List PRRecord).map epleyEstimate := by
  have h := oneRepMaxOf_max_of_estimates [⟨1, 100⟩, ⟨5, 90⟩] (by
    intro r hr
    rcases List.mem_cons.mp hr with h | h
    · rw [h]; exact ⟨by norm_num, by norm_num⟩
    · rw [List.mem_singleton] at h; rw [h]; exact ⟨by norm_num, by norm_num⟩)
  exact (h.2.1 (by simp)).1

theorem parseDayStartMinutes_bounds (v : String) :
    0 ≤ parseDayStartMinutes v ∧ parseDayStartMinutes v ≤ 1439 := by
  simp only [parseDayStartMinutes]
  split_ifs <;> omega

/-- C7: the logical-date computation takes the local wall-clock reading in the
configured timezone and maps it to the previous calendar date exactly when its
minutes-since-midnight fall below the configured offset, and to the current
date otherwise; the offset parses "HH:MM" / "HHMM" strings, always lands in
[0, 1439], and malformed or empty input yields 0.  With offset "04:00"
(240 minutes), 02:00 local maps to the previous date and 05:00 local to the
current date. -/
theorem logicalCalDate_spec :
    (∀ v : String, 0 ≤ parseDayStartMinutes v ∧ parseDayStartMinutes v ≤ 1439) ∧
    parseDayStartMinutes "" = 0 ∧
    parseDayStartMinutes "garbage" = 0 ∧
    parseDayStartMinutes "04:00" = 240 ∧
    parseDayStartMinutes "0400" = 240 ∧
    (∀ (wall : LocalWallClock) (off : Int),
      ((wall.hour * 60 + wall.minute : Int) < off →
        logicalCalDate wall off = prevCalendarDate ⟨wall.year, wall.month, wall.day⟩) ∧
      (off ≤ (wall.hour * 60 + wall.minute : Int) →
        logicalCalDate wall off = ⟨wall.year, wall.month, wall.day⟩)) ∧
    logicalCalDate ⟨2026, 3, 1, 2, 0⟩ (parseDayStartMinutes "04:00") = ⟨2026, 2, 28⟩ ∧
    logicalCalDate ⟨2026, 3, 1, 5, 0⟩ (parseDayStartMinutes "04:00") = ⟨2026, 3, 1⟩ := by
  refine ⟨parseDayStartMinutes_bounds, by decide, by decide, by decide, by decide,
    ?_, by decide, by decide⟩
  intro wall off
  constructor
  · intro h
    simp only [logicalCalDate, if_pos h]
  · intro h
    simp only [logicalCalDate, if_neg (not_lt.mpr h)]

theorem logicalCalDate_spec_witness :
    0 ≤ parseDayStartMinutes "whatever" ∧
    logicalCalDate ⟨2024, 1, 1, 0, 30⟩ 240 = ⟨2023, 12, 31⟩ := by
  refine ⟨(logicalCalDate_spec.1 "whatever").1, ?_⟩
  rw [(logicalCalDate_spec.2.2.2.2.2.1 ⟨2024, 1, 1, 0, 30⟩ 240).1 (by decide)]
  decide

theorem clonedPlannedSets_map_rest (logId : String) :
    ∀ (rows : List SplitSet) (startId : Nat),
      (clonedPlannedSets logId startId rows).map PlannedSet.rest =
        rows.map SplitSet.rest := by
  intro rows
  induction rows with
  | nil => intro s; rfl
  | cons ss rest ih =>
    intro s
    simp only [clonedPlannedSets, List.map_cons]
    rw [ih]

/-- C10: `addPlan` and `updatePlan` store `item.rest || 60`, so a supplied
rest of 0, `null`, or an absent field is stored as 60 and a rest of 0 can
never be stored through them; `applySplitIfEmpty`, in contrast, copies each
template row's rest verbatim into the cloned planned sets, including a rest
of 0. -/
theorem rest_defaulting_spec :
    (∀ (db : DB) (logId : String) (item : PlanItem),
      ((addPlan db logId item).1.plannedSets.getLast?).map PlannedSet.rest =
        some (jsRestOr60 item.rest)) ∧
    (∀ (item : PlanItem),
      ((item.rest = none ∨ item.rest = some 0) → jsRestOr60 item.rest = 60) ∧
      jsRestOr60 item.rest ≠ 0) ∧
    (∀ (db : DB) (id : Nat) (item : PlanItem),
      ∀ ps ∈ (updatePlan db id item).plannedSets, ps.id = id →
        ps.rest = jsRestOr60 item.rest) ∧
    (∀ (db : DB) (logId : String) (date : CalDate),
      (db.plannedSets.filter (fun ps => ps.logId = logId)).length = 0 →
      (applySplitIfEmpty db logId date).plannedSets.map PlannedSet.rest =
        db.plannedSets.map PlannedSet.rest ++
          (splitRowsFor db (dayOfWeek date)).map SplitSet.rest) := by
  refine ⟨?_, ?_, ?_, ?_⟩
  · intro db logId item
    have hps := (getExerciseId_state db item.exercise).1
    simp only [addPlan, hps, List.getLast?_concat]
    rfl
  · intro item
    constructor
    · rintro (h | h) <;> simp [jsRestOr60, h]
    · cases h : item.rest with
      | none => simp [jsRestOr60]
      | some r =>
        simp only [jsRestOr60]
        split <;> omega
  · intro db id item ps hmem hid
    simp only [updatePlan, List.mem_map] at hmem
    obtain ⟨x, _, hx⟩ := hmem
    by_cases hxid : x.id = id
    · rw [if_pos hxid] at hx
      rw [← hx]
    · rw [if_neg hxid] at hx
      rw [← hx] at hid
      exact absurd hid hxid
  · intro db logId date hlen
    unfold applySplitIfEmpty
    rw [if_neg (by omega)]
    simp only [List.map_append, clonedPlannedSets_map_rest]

theorem rest_defaulting_spec_witness :
    ((addPlan emptyDB "d" ⟨"Bench Press", 1, 5, 100, some 0, none⟩).1.plannedSets.getLast?).map
        PlannedSet.rest = some 60 ∧
    (applySplitIfEmpty restWitnessDB "d1" ⟨2026, 10, 11⟩).plannedSets.map PlannedSet.rest =
      [0] := by
  constructor
  · rw [rest_defaulting_spec.1 emptyDB "d" ⟨"Bench Press", 1, 5, 100, some 0, none⟩]
    rfl
  · rw [rest_defaulting_spec.2.2.2 restWitnessDB "d1" ⟨2026, 10, 11⟩ (by decide)]
    decide

/-- C8 counterexample: `addPlan` with an empty exercise name is not rejected —
it get-or-creates an `exercises` row named `""` and inserts the planned set,
so writes do occur on malformed input. -/
theorem addPlan_empty_name_counterexample :
    (addPlan oneDayDB "d1" ⟨"", 1, 5, 100, none, none⟩).1.exercises = [⟨1, ""⟩] ∧
    (addPlan oneDayDB "d1" ⟨"", 1, 5, 100, none, none⟩).1.plannedSets.length = 1 := by
  decide

/-- C8 (amended): the write operations perform no input validation: `addPlan`,
`addCompleted` and `addSplit` insert a row for every input (the numeric fields
are passed through to the store unchecked), and an empty exercise name is
get-or-created like any other name, inserting an `exercises` row named `""`
when none exists. -/
theorem write_ops_never_reject (db : DB) (logId : String) (p : PlanItem)
    (c : CompletedItem) (dow : Int) (s : PlanItem) :
    (addPlan db logId p).1.plannedSets.length = db.plannedSets.length + 1 ∧
    (addCompleted db logId c).1.completedSets.length = db.completedSets.length + 1 ∧
    (addSplit db dow s).1.splitSets.length = db.splitSets.length + 1 ∧
    (p.exercise = "" →
      db.exercises.find? (fun e => lowerStr e.name = lowerStr "") = none →
      ⟨db.nextExerciseId, ""⟩ ∈ (addPlan db logId p).1.exercises) := by
  refine ⟨?_, ?_, ?_, ?_⟩
  · simp [addPlan, (getExerciseId_state db p.exercise).1]
  · simp [addCompleted, (getExerciseId_state db c.exercise).2.1]
  · simp [addSplit, (getExerciseId_state db s.exercise).2.2.2.1]
  · intro hname hfind
    have hg : (getExerciseId db p.exercise).1.exercises =
        db.exercises ++ [⟨db.nextExerciseId, p.exercise⟩] := by
      simp only [getExerciseId, hname, hfind]
    have hx : (addPlan db logId p).1.exercises =
        (getExerciseId db p.exercise).1.exercises := rfl
    rw [hx, hg, hname]
    simp

theorem write_ops_never_reject_witness :
    (⟨1, ""⟩ : Exercise) ∈
      (addPlan oneDayDB "d1" ⟨"", 1, 5, 100, none, none⟩).1.exercises := by
  exact (write_ops_never_reject oneDayDB "d1" ⟨"", 1, 5, 100, none, none⟩
    ⟨"x", 1, 1, none⟩ 0 ⟨"y", 1, 1, 1, none, none⟩).2.2.2 rfl (by decide)

theorem clonedPlannedSets_logId (logId : String) :
    ∀ (rows : List SplitSet) (startId : Nat) (ps : PlannedSet),
      ps ∈ clonedPlannedSets logId startId rows → ps.logId = logId := by
  intro rows
  induction rows with
  | nil => intro s ps h; simp [clonedPlannedSets] at h
  | cons ss rest ih =>
    intro s ps h
    rcases List.mem_cons.mp h with h | h
    · rw [h]
    · exact ih _ ps h

theorem clonedPlannedSets_length (logId : String) :
    ∀ (rows : List SplitSet) (startId : Nat),
      (clonedPlannedSets logId startId rows).length = rows.length := by
  intro rows
  induction rows with
  | nil => intro s; rfl
  | cons ss rest ih =>
    intro s
    simp only [clonedPlannedSets, List.length_cons]
    rw [ih]

theorem applySplitIfEmpty_rows_nil (db : DB) (logId : String) (date : CalDate)
    (h : splitRowsFor db (dayOfWeek date) = []) :
    applySplitIfEmpty db logId date = db := by
  simp only [applySplitIfEmpty, h]
  split
  · rfl
  · cases db
    simp [clonedPlannedSets]

theorem splitRowsFor_after_applySplit (db : DB) (logId : String) (date : CalDate)
    (dow : Nat) :
    splitRowsFor (applySplitIfEmpty db logId date) dow = splitRowsFor db dow := by
  obtain ⟨hex, _, _, hss, _⟩ := applySplitIfEmpty_state db logId date
  unfold splitRowsFor
  rw [hex, hss]

theorem applySplitIfEmpty_idem (db : DB) (logId : String) (date : CalDate) :
    applySplitIfEmpty (applySplitIfEmpty db logId date) logId date =
      applySplitIfEmpty db logId date := by
  by_cases h : 0 < (db.plannedSets.filter (fun ps => ps.logId = logId)).length
  · rw [applySplitIfEmpty_of_nonempty db logId date h,
      applySplitIfEmpty_of_nonempty db logId date h]
  · by_cases hrows : splitRowsFor db (dayOfWeek date) = []
    · rw [applySplitIfEmpty_rows_nil db logId date hrows,
        applySplitIfEmpty_rows_nil db logId date hrows]
    · apply applySplitIfEmpty_of_nonempty
      have hstate : (applySplitIfEmpty db logId date).plannedSets =
          db.plannedSets ++
            clonedPlannedSets logId db.nextPlannedSetId
              (splitRowsFor db (dayOfWeek date)) := by
        unfold applySplitIfEmpty
        rw [if_neg h]
      rw [hstate, List.filter_append]
      have hclone : (clonedPlannedSets logId db.nextPlannedSetId
          (splitRowsFor db (dayOfWeek date))).filter (fun ps => ps.logId = logId) =
          clonedPlannedSets logId db.nextPlannedSetId
            (splitRowsFor db (dayOfWeek date)) := by
        apply List.filter_eq_self.mpr
        intro ps hps
        simp [clonedPlannedSets_logId logId _ _ ps hps]
      rw [hclone, List.length_append, clonedPlannedSets_length]
      have : splitRowsFor db (dayOfWeek date) ≠ [] := hrows
      have hpos : 0 < (splitRowsFor db (dayOfWeek date)).length :=
        List.length_pos.mpr this
      omega

theorem ensureDay_finds (db : DB) (date : CalDate) :
    ∃ l : DailyLog,
      (ensureDay db date).1.dailyLogs.find? (fun x => x.logDate = date) = some l ∧
      l.id = (ensureDay db date).2 := by
  unfold ensureDay
  cases h : db.dailyLogs.find? (fun x => x.logDate = date) with
  | some l => exact ⟨l, h, rfl⟩
  | none =>
    refine ⟨⟨"log-" ++ toString db.nextLogNum, date, ""⟩, ?_, rfl⟩
    rw [List.find?_append, h]
    simp

theorem ensureDay_of_found {db : DB} {date : CalDate} {l : DailyLog}
    (h : db.dailyLogs.find? (fun x => x.logDate = date) = some l) :
    ensureDay db date = (db, l.id) := by
  unfold ensureDay
  rw [h]

/-- C4: running `ensureDay` followed by `applySplitIfEmpty` a second time for
the same date is a complete no-op: the second pass returns the same day id
and leaves the entire store — in particular the planned-set rows, hence their
count and contents — unchanged, because `ensureDay` finds the existing date
row and the emptiness check (or the emptiness of the weekday template) gates
the clone. -/
theorem materializeDay_idempotent (db : DB) (date : CalDate) :
    materializeDay (materializeDay db date).1 date = materializeDay db date := by
  obtain ⟨l, hfind, hid⟩ := ensureDay_finds db date
  have h1 : (materializeDay db date).1 =
      applySplitIfEmpty (ensureDay db date).1 (ensureDay db date).2 date := rfl
  have hlogs :=
    (applySplitIfEmpty_state (ensureDay db date).1 (ensureDay db date).2 date).2.2.1
  have hfind1 : (applySplitIfEmpty (ensureDay db date).1 (ensureDay db date).2
      date).dailyLogs.find? (fun x => x.logDate = date) = some l := by
    rw [hlogs]; exact hfind
  have hens := ensureDay_of_found hfind1
  have hm2 : materializeDay (materializeDay db date).1 date =
      (applySplitIfEmpty (ensureDay (materializeDay db date).1 date).1
        (ensureDay (materializeDay db date).1 date).2 date,
       (ensureDay (materializeDay db date).1 date).2) := rfl
  have hm : materializeDay db date =
      (applySplitIfEmpty (ensureDay db date).1 (ensureDay db date).2 date,
       (ensureDay db date).2) := rfl
  rw [hm2, h1, hens, hm, hid]
  simp only [Prod.mk.injEq]
  exact ⟨applySplitIfEmpty_idem _ _ _, trivial⟩

/-- C9: the displayed PR list of an exercise is the stable sort of its records
by rep count; when a true 1-rep record exists the sorted records are shown
unchanged with nothing flagged estimated, and when none exists (and the list
is non-empty) a leading synthesized entry
`{reps: 1, maxLoad: round(lowest.maxLoad * (1 + lowest.reps/30)), estimated: true}`
built from the lowest-rep record is prepended; `processPRs` is a pure
function of the fetched records, so the synthesized entry is never written
back to the store. -/
theorem processPRs_spec (prList : List PRRecord) :
    List.Perm (sortedByReps prList) prList ∧
    List.Sorted prRecordLe (sortedByReps prList) ∧
    ((∃ pr ∈ prList, pr.reps = 1) →
      processExercisePRs prList = (sortedByReps prList).map toDisplayPR ∧
      ∀ d ∈ processExercisePRs prList, d.estimated = false) ∧
    ((¬ ∃ pr ∈ prList, pr.reps = 1) → prList ≠ [] →
      ∃ next rest, sortedByReps prList = next :: rest ∧
        (∀ pr ∈ prList, next.reps ≤ pr.reps) ∧
        processExercisePRs prList =
          ⟨1, (computeEstimated1RM next.reps next.maxLoad : ℚ), true⟩ ::
            (next :: rest).map toDisplayPR) := by
  have hperm : List.Perm (sortedByReps prList) prList := List.perm_insertionSort prRecordLe prList
  have hsorted : List.Sorted prRecordLe (sortedByReps prList) :=
    List.sorted_insertionSort prRecordLe prList
  have hproc : processExercisePRs prList =
      (if (sortedByReps prList).any (fun pr => pr.reps = 1) then
        (sortedByReps prList).map toDisplayPR
      else
        match sortedByReps prList with
        | [] => []
        | next :: rest =>
          ⟨1, (computeEstimated1RM next.reps next.maxLoad : ℚ), true⟩ ::
            (next :: rest).map toDisplayPR) := rfl
  refine ⟨hperm, hsorted, ?_, ?_⟩
  · rintro ⟨pr, hpr, hpr1⟩
    have hany : (sortedByReps prList).any (fun pr => decide (pr.reps = 1)) = true := by
      rw [List.any_eq_true]
      exact ⟨pr, hperm.mem_iff.mpr hpr, by simp [hpr1]⟩
    have hres : processExercisePRs prList = (sortedByReps prList).map toDisplayPR := by
      rw [hproc, if_pos hany]
    refine ⟨hres, ?_⟩
    intro d hd
    rw [hres, List.mem_map] at hd
    obtain ⟨x, _, hx⟩ := hd
    rw [← hx]
    rfl
  · intro hno hne
    have hany : (sortedByReps prList).any (fun pr => decide (pr.reps = 1)) = false := by
      rw [List.any_eq_false]
      intro x hx
      simp only [decide_eq_true_eq]
      exact fun h1 => hno ⟨x, hperm.mem_iff.mp hx, h1⟩
    have hsne : sortedByReps prList ≠ [] := by
      intro h
      apply hne
      apply List.Perm.eq_nil
      rw [← h]
      exact hperm.symm
    obtain ⟨next, rest, hcons⟩ := List.exists_cons_of_ne_nil hsne
    refine ⟨next, rest, hcons, ?_, ?_⟩
    · intro pr hpr
      have hmem : pr ∈ sortedByReps prList := hperm.mem_iff.mpr hpr
      rw [hcons] at hmem hsorted
      rcases List.mem_cons.mp hmem with h | h
      · rw [h]
      · exact (List.sorted_cons.mp hsorted).1 pr h
    · rw [hproc, if_neg (by rw [hany]; simp), hcons]

theorem processPRs_spec_witness :
    processExercisePRs [⟨5, 90⟩] = [⟨1, 105, true⟩, ⟨5, 90, false⟩] := by
  obtain ⟨next, rest, hcons, hmin, hres⟩ :=
    (processPRs_spec [⟨5, 90⟩]).2.2.2 (by decide) (by decide)
  have hs : sortedByReps [(⟨5, 90⟩ : PRRecord)] = [⟨5, 90⟩] := by decide
  rw [hs] at hcons
  injection hcons with h1 h2
  subst h1
  subst h2
  rw [hres]
  norm_num [computeEstimated1RM, toDisplayPR, jsRound]

theorem oneRepMaxOf_getPRsFor_pos {db : DB} {ex : String}
    (hne : getPRsFor db ex ≠ []) : 0 < oneRepMaxOf (getPRsFor db ex) :=
  (oneRepMaxOf_spec (fun _ hr => getPRsFor_pos hr) hne).2.2

theorem resolvePlanRow_spec (db : DB) (r : PlanRow) :
    (r.relative = false → (resolvePlanRow db r).calculatedLoad = r.load ∧
      (resolvePlanRow db r).originalLoad = r.load) ∧
    (r.relative = true → (resolvePlanRow db r).originalLoad = r.load ∧
      (getPRsFor db (lowerStr r.exercise) = [] →
        (resolvePlanRow db r).calculatedLoad = 0) ∧
      (getPRsFor db (lowerStr r.exercise) ≠ [] →
        (resolvePlanRow db r).calculatedLoad =
          (jsRound (oneRepMaxOf (getPRsFor db (lowerStr r.exercise)) * r.load / 100) : ℚ))) := by
  constructor
  · intro hrel
    have hres : resolvePlanRow db r =
        ⟨r.id, r.exercise, r.reps, r.load, r.rest, r.orderNum, r.relative,
          r.load, r.load⟩ := by
      unfold resolvePlanRow
      rw [if_neg (by simp [hrel])]
    rw [hres]
    exact ⟨rfl, rfl⟩
  · intro hrel
    have hres : resolvePlanRow db r =
        ⟨r.id, r.exercise, r.reps, r.load, r.rest, r.orderNum, r.relative,
          (match lookupOneRM db (lowerStr r.exercise) with
           | some rm => if rm ≠ 0 then (jsRound (rm * r.load / 100) : ℚ) else 0
           | none => 0), r.load⟩ := by
      unfold resolvePlanRow
      rw [if_pos hrel]
    rw [hres]
    refine ⟨rfl, ?_, ?_⟩
    · intro hnil
      have hl : lookupOneRM db (lowerStr r.exercise) = none := by
        unfold lookupOneRM
        rw [hnil]
      show ((match lookupOneRM db (lowerStr r.exercise) with
           | some rm => if rm ≠ 0 then (jsRound (rm * r.load / 100) : ℚ) else 0
           | none => 0) : ℚ) = (0 : ℚ)
      rw [hl]
    · intro hnnil
      obtain ⟨a, as, hcons⟩ := List.exists_cons_of_ne_nil hnnil
      have hl : lookupOneRM db (lowerStr r.exercise) =
          some (oneRepMaxOf (getPRsFor db (lowerStr r.exercise))) := by
        unfold lookupOneRM
        rw [hcons]
      have hpos := oneRepMaxOf_getPRsFor_pos hnnil
      show ((match lookupOneRM db (lowerStr r.exercise) with
           | some rm => if rm ≠ 0 then (jsRound (rm * r.load / 100) : ℚ) else 0
           | none => 0) : ℚ) =
          (jsRound (oneRepMaxOf (getPRsFor db (lowerStr r.exercise)) * r.load / 100) : ℚ)
      rw [hl]
      simp only [ne_eq]
      rw [if_pos (by exact ne_of_gt hpos)]

theorem getDay_none {db : DB} {d : String}
    (hfind : db.dailyLogs.find? (fun l => l.id = d) = none) :
    getDay db d = (db, none) := by
  unfold getDay
  rw [hfind]

theorem getDay_eq_of_found {db : DB} {d : String} {log : DailyLog}
    (hfind : db.dailyLogs.find? (fun l => l.id = d) = some log) :
    getDay db d = (applySplitIfEmpty db d log.logDate,
      some ⟨log, (planQuery (applySplitIfEmpty db d log.logDate) d).map
          (resolvePlanRow (applySplitIfEmpty db d log.logDate)),
        completedQuery (applySplitIfEmpty db d log.logDate) d⟩) := by
  unfold getDay
  rw [hfind]

/-- C5: every plan row returned by `getDay` resolves its load on read: an
absolute row has `calculatedLoad = originalLoad = storedLoad`; a relative row
keeps `originalLoad = storedLoad` (the percentage) and gets
`calculatedLoad = round(oneRM * storedLoad / 100)` with the 1RM looked up
under the lower-cased exercise name, 0 when that exercise has no PR entry;
and the resolution never writes to stored planned sets — `getDay` leaves
every pre-existing `planned_sets` row (in particular its `load` column)
intact, at most appending template clones. -/
theorem getDay_load_resolution (db : DB) (d : String) (view : DayView)
    (row : PlanViewRow) (hview : (getDay db d).2 = some view)
    (hrow : row ∈ view.plan) :
    (row.relative = false → row.calculatedLoad = row.load ∧
      row.originalLoad = row.load) ∧
    (row.relative = true → row.originalLoad = row.load ∧
      (getPRsFor (getDay db d).1 (lowerStr row.exercise) = [] →
        row.calculatedLoad = 0) ∧
      (getPRsFor (getDay db d).1 (lowerStr row.exercise) ≠ [] →
        row.calculatedLoad =
          (jsRound (oneRepMaxOf (getPRsFor (getDay db d).1 (lowerStr row.exercise)) *
            row.load / 100) : ℚ))) ∧
    (∃ added, (getDay db d).1.plannedSets = db.plannedSets ++ added) := by
  cases hfind : db.dailyLogs.find? (fun l => l.id = d) with
  | none =>
    rw [getDay_none hfind] at hview
    exact absurd hview (by simp)
  | some log =>
    rw [getDay_eq_of_found hfind] at hview ⊢
    simp only [Option.some.injEq] at hview
    subst hview
    simp only [List.mem_map] at hrow
    obtain ⟨r, hr, hres⟩ := hrow
    subst hres
    have hspec := resolvePlanRow_spec (applySplitIfEmpty db d log.logDate) r
    obtain ⟨hid, hrest, hex, hload, hrel⟩ :=
      resolvePlanRow_fields (applySplitIfEmpty db d log.logDate) r
    refine ⟨?_, ?_, (applySplitIfEmpty_state db d log.logDate).2.2.2.2.2.2.2⟩
    · intro h
      rw [hrel] at h
      obtain ⟨h1, h2⟩ := hspec.1 h
      rw [h1, h2, hload]
      exact ⟨rfl, rfl⟩
    · intro h
      rw [hrel] at h
      obtain ⟨h1, h2, h3⟩ := hspec.2 h
      rw [hex, hload]
      exact ⟨by rw [h1], h2, h3⟩

theorem getDay_load_resolution_witness :
    (⟨1, "Bench Press", 5, 135, 90, 1, false, 135, 135⟩ : PlanViewRow).calculatedLoad =
      (⟨1, "Bench Press", 5, 135, 90, 1, false, 135, 135⟩ : PlanViewRow).load := by
  have h := getDay_load_resolution c5DB "d1"
    ⟨⟨"d1", ⟨2026, 1, 5⟩, ""⟩, [⟨1, "Bench Press", 5, 135, 90, 1, false, 135, 135⟩], []⟩
    ⟨1, "Bench Press", 5, 135, 90, 1, false, 135, 135⟩ (by decide) (by decide)
  exact (h.1 rfl).1

/-- C3: for a planned set P of an existing day (in a well-formed store: P's
id is unique among planned sets and its exercise row exists), P appears in
the active plan view returned by `getDay` exactly when no completed set
references it through `planned_set_id`; and the exclusion never deletes the
row — P is still present in the stored planned sets afterwards. -/
theorem plan_active_iff_unreferenced (db : DB) (d : String) (P : PlannedSet)
    (hmem : P ∈ db.plannedSets) (hlog : P.logId = d)
    (huniq : ∀ q ∈ db.plannedSets, q.id = P.id → q = P)
    (hex : (db.exercises.find? (fun e => e.id = P.exerciseId)).isSome)
    (log : DailyLog) (hday : db.dailyLogs.find? (fun l => l.id = d) = some log) :
    ∃ view, (getDay db d).2 = some view ∧
      (P.id ∈ view.plan.map PlanViewRow.id ↔
        ¬ ∃ cs ∈ db.completedSets, cs.plannedSetId = some P.id) ∧
      P ∈ (getDay db d).1.plannedSets := by
  have happly : applySplitIfEmpty db d log.logDate = db :=
    applySplitIfEmpty_of_nonempty db d log.logDate (day_filter_pos_of_mem hmem hlog)
  rw [getDay_eq_of_found hday, happly]
  refine ⟨_, rfl, ?_, hmem⟩
  have hmemid : P.id ∈ ((planQuery db d).map (resolvePlanRow db)).map PlanViewRow.id ↔
      P.id ∈ (planQuery db d).map PlanRow.id := by
    simp only [List.mem_map]
    constructor
    · rintro ⟨v, ⟨r, hr, hv⟩, hvid⟩
      exact ⟨r, hr, by rw [← hvid, ← hv]; exact (resolvePlanRow_fields db r).1.symm⟩
    · rintro ⟨r, hr, hrid⟩
      exact ⟨resolvePlanRow db r, ⟨r, hr, rfl⟩,
        by rw [(resolvePlanRow_fields db r).1]; exact hrid⟩
  rw [hmemid]
  have hperm : List.Perm ((planQuery db d).map PlanRow.id)
      ((db.plannedSets.filterMap (planRowOf db d)).map PlanRow.id) :=
    (List.perm_insertionSort planRowLe _).map PlanRow.id
  rw [hperm.mem_iff]
  constructor
  · intro hin
    rw [List.mem_map] at hin
    obtain ⟨row, hrow, hrowid⟩ := hin
    rw [List.mem_filterMap] at hrow
    obtain ⟨q, hq, hfq⟩ := hrow
    obtain ⟨hqlog, hroweq, hany⟩ := planRowOf_eq_some hfq
    have hqid : row.id = q.id := by rw [hroweq]
    have : q = P := huniq q hq (by rw [← hqid, hrowid])
    subst this
    rw [List.any_eq_false] at hany
    rintro ⟨cs, hcs, hcsref⟩
    exact absurd (by simp [hcsref]) (hany cs hcs)
  · intro hnone
    have hany : (db.completedSets.any (fun cs => cs.plannedSetId = some P.id)) = false := by
      rw [List.any_eq_false]
      intro cs hcs
      simp only [decide_eq_true_eq]
      exact fun h => hnone ⟨cs, hcs, h⟩
    obtain ⟨e, hfind⟩ := Option.isSome_iff_exists.mp hex
    have hrow := planRowOf_some_of hlog hfind hany
    rw [List.mem_map]
    exact ⟨⟨P.id, e.name, P.reps, P.load, P.rest, P.orderNum, P.relative⟩,
      List.mem_filterMap.mpr ⟨P, hmem, hrow⟩, rfl⟩

theorem plan_active_iff_unreferenced_witness :
    ∃ view, (getDay c5DB "d1").2 = some view ∧
      ((1 : Nat) ∈ view.plan.map PlanViewRow.id ↔
        ¬ ∃ cs ∈ c5DB.completedSets, cs.plannedSetId = some 1) ∧
      (⟨1, "d1", 1, 1, 5, 135, 90, false⟩ : PlannedSet) ∈ (getDay c5DB "d1").1.plannedSets := by
  exact plan_active_iff_unreferenced c5DB "d1" ⟨1, "d1", 1, 1, 5, 135, 90, false⟩
    (by decide) rfl (by decide) (by decide) ⟨"d1", ⟨2026, 1, 5⟩, ""⟩ (by decide)

theorem jsIdOrNull_of_ne_zero {n : Nat} (h : n ≠ 0) : jsIdOrNull (some n) = some n := by
  simp [jsIdOrNull, h]

theorem completedEndpoint_eq {db db1 : DB} {d : String} (item : CompletedItem)
    {dayData : DayView} (h : getDay db d = (db1, some dayData)) :
    completedEndpoint db d item =
      ((getDay (match dayData.plan.head? with
        | some ns =>
          if ns.rest ≠ 0 then setTimerSeconds (addCompleted db1 d item).1 ns.rest
          else (addCompleted db1 d item).1
        | none => (addCompleted db1 d item).1) d).1,
       some (addCompleted db1 d item).2) := by
  unfold completedEndpoint
  rw [h]

theorem addCompleted_state (db : DB) (logId : String) (item : CompletedItem) :
    (addCompleted db logId item).1.plannedSets = db.plannedSets ∧
    (addCompleted db logId item).1.dailyLogs = db.dailyLogs ∧
    (addCompleted db logId item).1.splitSets = db.splitSets ∧
    (addCompleted db logId item).1.timer = db.timer ∧
    (addCompleted db logId item).1.now = db.now ∧
    (addCompleted db logId item).1.trackedExercises = db.trackedExercises ∧
    (addCompleted db logId item).1.nextTimerId = db.nextTimerId ∧
    (∃ add, (addCompleted db logId item).1.exercises = db.exercises ++ add) ∧
    (∃ newCS, (addCompleted db logId item).1.completedSets = db.completedSets ++ [newCS] ∧
      newCS.plannedSetId = jsIdOrNull item.planned_set_id ∧ newCS.logId = logId) := by
  obtain ⟨h1, h2, h3, h4, h5, h6, h7, h8, h9, h10, h11, add, h12⟩ :=
    getExerciseId_state db item.exercise
  unfold addCompleted
  refine ⟨h1, h3, h4, h5, h6, h7, h11, ⟨add, h12⟩, ?_⟩
  refine ⟨⟨(getExerciseId db item.exercise).1.nextCompletedSetId, logId,
    (getExerciseId db item.exercise).2, jsIdOrNull item.planned_set_id,
    item.reps_done, item.load_done, (getExerciseId db item.exercise).1.now⟩, ?_, rfl, rfl⟩
  show (getExerciseId db item.exercise).1.completedSets ++ _ = db.completedSets ++ _
  rw [h2]

theorem planQuery_nonempty_day {db : DB} {d : String} (h : planQuery db d ≠ []) :
    0 < (db.plannedSets.filter (fun ps => ps.logId = d)).length := by
  obtain ⟨row, hrow⟩ := List.exists_mem_of_ne_nil _ h
  have hmem : row ∈ db.plannedSets.filterMap (planRowOf db d) :=
    (List.perm_insertionSort planRowLe _).mem_iff.mp hrow
  rw [List.mem_filterMap] at hmem
  obtain ⟨ps, hps, hf⟩ := hmem
  exact day_filter_pos_of_mem hps (planRowOf_eq_some hf).1

theorem planRowOf_after {db db' : DB} {d : String} {add : List Exercise}
    {newCS : CompletedSet} {aid : Nat} (hnew : newCS.plannedSetId = some aid)
    (hex' : db'.exercises = db.exercises ++ add)
    (hcs' : db'.completedSets = db.completedSets ++ [newCS])
    (ps : PlannedSet)
    (hclean : ps.logId = d → (db.exercises.find? (fun e => e.id = ps.exerciseId)).isSome) :
    planRowOf db' d ps = if ps.id = aid then none else planRowOf db d ps := by
  by_cases hlog : ps.logId = d
  · obtain ⟨e, hfind⟩ := Option.isSome_iff_exists.mp (hclean hlog)
    have hfind' : db'.exercises.find? (fun x => x.id = ps.exerciseId) = some e := by
      rw [hex', find?_append_of_isSome _ _ _ (by rw [hfind]; rfl), hfind]
    have hany' : db'.completedSets.any (fun cs => cs.plannedSetId = some ps.id) =
        (db.completedSets.any (fun cs => cs.plannedSetId = some ps.id) ||
          decide (newCS.plannedSetId = some ps.id)) := by
      rw [hcs', List.any_append]
      simp [List.any_cons]
    by_cases hid : ps.id = aid
    · rw [if_pos hid]
      have : decide (newCS.plannedSetId = some ps.id) = true := by
        simp [hnew, hid]
      unfold planRowOf
      rw [if_pos hlog, hfind', hany', this, Bool.or_true]
      rfl
    · rw [if_neg hid]
      have hdec : decide (newCS.plannedSetId = some ps.id) = false := by
        simp only [hnew, decide_eq_false_iff_not]
        intro hcontr
        exact hid (by injection hcontr with h; exact h.symm)
      unfold planRowOf
      rw [if_pos hlog, hfind', hfind, hany', hdec, Bool.or_false, if_pos hlog]
  · unfold planRowOf
    rw [if_neg hlog, if_neg hlog]
    split <;> rfl

theorem filterMap_planRowOf_after {db db' : DB} {d : String} {add : List Exercise}
    {newCS : CompletedSet} {aid : Nat} (hnew : newCS.plannedSetId = some aid)
    (hex' : db'.exercises = db.exercises ++ add)
    (hcs' : db'.completedSets = db.completedSets ++ [newCS]) :
    ∀ (l : List PlannedSet),
      (∀ ps ∈ l, ps.logId = d →
        (db.exercises.find? (fun e => e.id = ps.exerciseId)).isSome) →
      l.filterMap (planRowOf db' d) =
        (l.filterMap (planRowOf db d)).filter (fun row => ¬ row.id = aid) := by
  intro l
  induction l with
  | nil => intro _; rfl
  | cons ps rest ih =>
    intro hl
    have hrest := fun q hq => hl q (List.mem_cons_of_mem _ hq)
    have hps := planRowOf_after hnew hex' hcs' ps (hl ps (List.mem_cons_self _ _))
    rw [List.filterMap_cons, List.filterMap_cons, hps]
    by_cases hid : ps.id = aid
    · rw [if_pos hid]
      cases hf : planRowOf db d ps with
      | none => exact ih hrest
      | some row =>
        have hrowid : row.id = aid := by
          rw [(planRowOf_eq_some hf).2.1, ← hid]
        rw [List.filter_cons, if_neg (by simp [hrowid])]
        exact ih hrest
    · rw [if_neg hid]
      cases hf : planRowOf db d ps with
      | none => exact ih hrest
      | some row =>
        have hrowid : ¬ row.id = aid := by
          rw [(planRowOf_eq_some hf).2.1]
          exact hid
        rw [List.filter_cons, if_pos (by simp [hrowid])]
        rw [ih hrest]

theorem perm_pair {α : Type} {l : List α} {a b : α} (h : List.Perm l [a, b]) :
    l = [a, b] ∨ l = [b, a] := by
  have hlen : l.length = 2 := by rw [h.length_eq]; rfl
  cases l with
  | nil => simp at hlen
  | cons x t =>
    cases t with
    | nil => simp at hlen
    | cons y u =>
      cases u with
      | cons z v => simp at hlen
      | nil =>
        have hx : x ∈ [a, b] := h.mem_iff.mp (by simp)
        rcases List.mem_cons.mp hx with hxa | hxb
        · subst hxa
          have h1 : List.Perm [y] [b] := h.cons_inv
          have h2 : y = b := by simpa using h1.mem_iff.mp (by simp)
          subst h2
          exact Or.inl rfl
        · have hxb' : x = b := by simpa using hxb
          subst hxb'
          have h1 : List.Perm [x, y] [x, a] := h.trans (List.Perm.swap x a [])
          have h2 : y = a := by simpa using h1.cons_inv.mem_iff.mp (by simp)
          subst h2
          exact Or.inr rfl

theorem getTimerStatus_setTimerSeconds (db : DB) (s : Int) (hs : 0 < s) :
    getTimerStatus (setTimerSeconds db s) = ⟨true, s, some (db.now + s)⟩ := by
  have hmax : max 0 s = s := max_eq_right (le_of_lt hs)
  unfold setTimerSeconds getTimerStatus latestTimerRow
  simp only [List.foldl_cons, List.foldl_nil]
  rw [hmax, add_sub_cancel_left, hmax]
  simp [hs]

/-- C1 counterexample: with the active queue `[A(rest=60), B(rest=90)]`,
completing A through the endpoint leaves the timer with 60 remaining seconds —
the handler reads the queue head (A itself) before inserting the completion
and uses its rest — not the 90 seconds of B that the claim states; the queue
does shrink to `[B]`. -/
theorem completedEndpoint_timer_counterexample :
    (planQuery c1DB "d1").map (fun r => (r.id, r.rest)) = [(1, 60), (2, 90)] ∧
    (getTimerStatus (completedEndpoint c1DB "d1" c1Item).1).remainingSeconds = 60 ∧
    ¬ (getTimerStatus (completedEndpoint c1DB "d1" c1Item).1).remainingSeconds = 90 ∧
    (planQuery (completedEndpoint c1DB "d1" c1Item).1 "d1").map PlanRow.id = [2] := by
  decide

/-- C1 (amended): for every day whose active queue is `[A(rest=60), B(rest=90)]`
ordered by `order_num` (in a well-formed store: the day exists, A and B have
distinct non-zero ids, and the day's planned sets all join to an exercise),
calling the completion endpoint for A with `planned_set_id = A.id` appends a
Completed Set referencing A and leaves the active queue equal to `[B]`; the
global rest timer, however, is set to 60 seconds — the rest of the head of the
queue read before the insertion, i.e. A itself — not to B's 90 seconds. -/
theorem completedEndpoint_head_rest (db : DB) (d : String) (item : CompletedItem)
    (rA rB : PlanRow) (log : DailyLog)
    (hq : planQuery db d = [rA, rB])
    (hA : rA.rest = 60) (hB : rB.rest = 90)
    (hlink : item.planned_set_id = some rA.id)
    (h0 : rA.id ≠ 0) (hBA : rB.id ≠ rA.id)
    (hday : db.dailyLogs.find? (fun l => l.id = d) = some log)
    (hclean : ∀ ps ∈ db.plannedSets, ps.logId = d →
      (db.exercises.find? (fun e => e.id = ps.exerciseId)).isSome) :
    (∃ newCS, (completedEndpoint db d item).1.completedSets =
        db.completedSets ++ [newCS] ∧ newCS.plannedSetId = some rA.id) ∧
    getTimerStatus (completedEndpoint db d item).1 = ⟨true, 60, some (db.now + 60)⟩ ∧
    planQuery (completedEndpoint db d item).1 d = [rB] := by
  have hpos : 0 < (db.plannedSets.filter (fun ps => ps.logId = d)).length :=
    planQuery_nonempty_day (by rw [hq]; simp)
  have happly : applySplitIfEmpty db d log.logDate = db :=
    applySplitIfEmpty_of_nonempty _ _ _ hpos
  have hgd : getDay db d = (db, some ⟨log, (planQuery db d).map (resolvePlanRow db),
      completedQuery db d⟩) := by
    rw [getDay_eq_of_found hday, happly]
  have hce := completedEndpoint_eq item hgd
  have hhead : ((planQuery db d).map (resolvePlanRow db)).head? =
      some (resolvePlanRow db rA) := by
    rw [hq]
    rfl
  rw [show (⟨log, (planQuery db d).map (resolvePlanRow db), completedQuery db d⟩ :
      DayView).plan = (planQuery db d).map (resolvePlanRow db) from rfl] at hce
  rw [hhead] at hce
  dsimp only at hce
  have hArest : (resolvePlanRow db rA).rest = 60 := by
    rw [(resolvePlanRow_fields db rA).2.1, hA]
  rw [hArest, if_pos (by decide)] at hce
  obtain ⟨hc_ps, hc_logs, hc_ss, hc_timer, hc_now, hc_tracked, hc_ntid,
    ⟨add, hc_ex⟩, newCS, hc_cs, hc_link, hc_logid⟩ := addCompleted_state db d item
  rw [hlink, jsIdOrNull_of_ne_zero h0] at hc_link
  have hfind3 : (setTimerSeconds (addCompleted db d item).1 60).dailyLogs.find?
      (fun l => l.id = d) = some log := by
    show (addCompleted db d item).1.dailyLogs.find? (fun l => l.id = d) = some log
    rw [hc_logs]
    exact hday
  have hpos3 : 0 < ((setTimerSeconds (addCompleted db d item).1 60).plannedSets.filter
      (fun ps => ps.logId = d)).length := by
    show 0 < ((addCompleted db d item).1.plannedSets.filter (fun ps => ps.logId = d)).length
    rw [hc_ps]
    exact hpos
  have happly3 : applySplitIfEmpty (setTimerSeconds (addCompleted db d item).1 60) d
      log.logDate = setTimerSeconds (addCompleted db d item).1 60 :=
    applySplitIfEmpty_of_nonempty _ _ _ hpos3
  have hfinal : (completedEndpoint db d item).1 =
      setTimerSeconds (addCompleted db d item).1 60 := by
    rw [hce, getDay_eq_of_found hfind3, happly3]
  rw [hfinal]
  refine ⟨⟨newCS, ?_, hc_link⟩, ?_, ?_⟩
  · show (addCompleted db d item).1.completedSets = db.completedSets ++ [newCS]
    exact hc_cs
  · rw [getTimerStatus_setTimerSeconds _ 60 (by decide), hc_now]
  · have hfm3 : (setTimerSeconds (addCompleted db d item).1 60).plannedSets.filterMap
        (planRowOf (setTimerSeconds (addCompleted db d item).1 60) d) =
        (db.plannedSets.filterMap (planRowOf db d)).filter
          (fun row => ¬ row.id = rA.id) := by
      have hps3 : (setTimerSeconds (addCompleted db d item).1 60).plannedSets =
          db.plannedSets := hc_ps
      rw [hps3]
      exact filterMap_planRowOf_after hc_link hc_ex hc_cs db.plannedSets hclean
    have hperm : List.Perm (db.plannedSets.filterMap (planRowOf db d)) [rA, rB] := by
      have hsp := List.perm_insertionSort planRowLe
        (db.plannedSets.filterMap (planRowOf db d))
      unfold planQuery at hq
      rw [← hq]
      exact hsp.symm
    have hfilter : (db.plannedSets.filterMap (planRowOf db d)).filter
        (fun row => ¬ row.id = rA.id) = [rB] := by
      rcases perm_pair hperm with hfm | hfm <;> rw [hfm] <;>
        simp [List.filter_cons, hBA]
    unfold planQuery
    rw [hfm3, hfilter]
    rfl

theorem completedEndpoint_head_rest_witness :
    getTimerStatus (completedEndpoint c1DB "d1" c1Item).1 = ⟨true, 60, some 1060⟩ ∧
    planQuery (completedEndpoint c1DB "d1" c1Item).1 "d1" =
      [⟨2, "Bench Press", 5, 135, 90, 2, false⟩] := by
  have h := completedEndpoint_head_rest c1DB "d1" c1Item
    ⟨1, "Bench Press", 5, 135, 60, 1, false⟩ ⟨2, "Bench Press", 5, 135, 90, 2, false⟩
    ⟨"d1", ⟨2026, 1, 5⟩, ""⟩ (by decide) rfl rfl rfl (by decide) (by decide)
    (by decide) (by decide)
  exact ⟨h.2.1, h.2.2⟩
